import Mathlib

/-!
Shallow embedding of the agentic-memory subsystem (src/agentic_memory.py).

The Python `MemoryService` orchestrates two stores:
  * MongoDB collections `messages` and `memory_nodes` (the record store,
    source of truth), modelled as Lean lists of structures;
  * a Qdrant collection of vector points (the semantic index), modelled as
    a list of `IndexPoint`.

Effects are made explicit:
  * `uuid.uuid4()` fresh-id generation is modelled by a counter `nextId`
    carried in the state (ids become naturals);
  * `datetime.utcnow()` is modelled by a strictly increasing logical clock
    `now` carried in the state (each call reads and bumps it);
  * the sentence-transformer embedder is an opaque parameter
    `embed : String → List ℚ`;
  * Qdrant similarity scoring is an opaque parameter
    `sim : List ℚ → List ℚ → ℚ`; `query_points` returns the filtered
    points stably sorted by score descending, truncated to the limit;
  * floats (importance scores) are modelled as rationals.
-/

namespace AgenticMemory

/-- A raw chat message document, as built by `add_message`. -/
structure Message where
  id : Nat
  session_id : String
  user_id : String
  role : String
  content : String
  created_at : Nat
deriving DecidableEq, Repr

/-- A memory-node document, as built by `promote_memory`. -/
structure MemoryNode where
  id : Nat
  user_id : String
  session_id : String
  m_type : String
  summary : String
  raw_refs : List Nat
  importance : ℚ
  last_used_at : Nat
  created_at : Nat
deriving DecidableEq, Repr

/-- The payload attached to a Qdrant point by `promote_memory`. -/
structure IndexPayload where
  memory_id : Nat
  user_id : String
  session_id : String
  m_type : String
  importance : ℚ
  created_at : Nat
  summary_preview : String
deriving DecidableEq, Repr

/-- A Qdrant point: point id, vector, payload. -/
structure IndexPoint where
  id : Nat
  vector : List ℚ
  payload : IndexPayload
deriving DecidableEq, Repr

/-- The combined state of the two stores, plus the fresh-id counter and the
logical clock. -/
structure MemState where
  messages : List Message
  memory_nodes : List MemoryNode
  points : List IndexPoint
  nextId : Nat
  now : Nat
deriving DecidableEq, Repr

/-- `uuid.uuid4()`: return a fresh id and bump the counter. -/
def fresh (st : MemState) : Nat × MemState :=
  (st.nextId, { st with nextId := st.nextId + 1 })

/-- `datetime.utcnow()`: read the clock and advance it. -/
def utcnow (st : MemState) : Nat × MemState :=
  (st.now, { st with now := st.now + 1 })

/-- Stable insertion of `x` into a list kept sorted descending by `key`:
`x` goes after every already-present element of greater-or-equal key. -/
def insertDescBy {α β : Type} [LinearOrder β] (key : α → β) (x : α) :
    List α → List α
  | [] => [x]
  | y :: ys => if key x ≤ key y then y :: insertDescBy key x ys
               else x :: y :: ys

/-- Stable sort, descending by `key` (earlier elements win ties). -/
def sortDescBy {α β : Type} [LinearOrder β] (key : α → β) (l : List α) :
    List α :=
  l.foldl (fun acc x => insertDescBy key x acc) []

/-- Qdrant `query_points`: the points satisfying the filter, ranked by
similarity to the query vector (descending, ties stable), first `limit`. -/
def queryPoints (sim : List ℚ → List ℚ → ℚ) (qv : List ℚ)
    (flt : IndexPoint → Bool) (limit : Nat) (ps : List IndexPoint) :
    List IndexPoint :=
  (sortDescBy (fun p => sim qv p.vector) (ps.filter flt)).take limit

/-- Qdrant `upsert`: replace any point with the same point id, else append. -/
def upsertPoint (p : IndexPoint) (ps : List IndexPoint) : List IndexPoint :=
  (ps.filter (fun q => !(q.id == p.id))) ++ [p]

/-- `MemoryService.add_message`: build the message document with a fresh id
and the current time, insert it into `messages`, return its id. -/
def add_message (user_id session_id role content : String) (st : MemState) :
    Nat × MemState :=
  let (mid, st1) := fresh st
  let (t, st2) := utcnow st1
  let msg : Message :=
    { id := mid, session_id := session_id, user_id := user_id,
      role := role, content := content, created_at := t }
  (mid, { st2 with messages := st2.messages ++ [msg] })

/-- The promotion threshold: the code indexes everything with
importance strictly greater than 0.3. -/
def PROMOTION_THRESHOLD : ℚ := mkRat 3 10

/-- `MemoryService.promote_memory`: always write the memory node to the
record store; if `importance > 0.3`, embed the summary and upsert a point
with a fresh point id into the semantic index. -/
def promote_memory (embed : String → List ℚ)
    (user_id session_id summary : String) (importance : ℚ)
    (m_type : String) (raw_refs : List Nat) (st : MemState) : MemState :=
  let (memory_id, st1) := fresh st
  let (t, st2) := utcnow st1
  let node : MemoryNode :=
    { id := memory_id, user_id := user_id, session_id := session_id,
      m_type := m_type, summary := summary, raw_refs := raw_refs,
      importance := importance, last_used_at := t, created_at := t }
  let st3 := { st2 with memory_nodes := st2.memory_nodes ++ [node] }
  if PROMOTION_THRESHOLD < importance then
    let vector := embed summary
    let payload : IndexPayload :=
      { memory_id := memory_id, user_id := user_id, session_id := session_id,
        m_type := m_type, importance := importance, created_at := t,
        summary_preview := summary.take 100 }
    let (pid, st4) := fresh st3
    { st4 with
      points := upsertPoint { id := pid, vector := vector, payload := payload }
                  st4.points }
  else st3

/-- `promote_memory` with the step-2 index write allowed to fail, modelling
an embedder/Qdrant error. The Python body has no try/except around step 2,
so a step-2 failure propagates as an exception (`Except.error`) after the
step-1 record-store insert has already happened; the returned state is the
state at the point the exception is raised. -/
def promote_memoryE (embed : String → List ℚ) (upsert_ok : Bool)
    (user_id session_id summary : String) (importance : ℚ)
    (m_type : String) (raw_refs : List Nat) (st : MemState) :
    Except Unit Unit × MemState :=
  let (memory_id, st1) := fresh st
  let (t, st2) := utcnow st1
  let node : MemoryNode :=
    { id := memory_id, user_id := user_id, session_id := session_id,
      m_type := m_type, summary := summary, raw_refs := raw_refs,
      importance := importance, last_used_at := t, created_at := t }
  let st3 := { st2 with memory_nodes := st2.memory_nodes ++ [node] }
  if PROMOTION_THRESHOLD < importance then
    if upsert_ok then
      let vector := embed summary
      let payload : IndexPayload :=
        { memory_id := memory_id, user_id := user_id,
          session_id := session_id, m_type := m_type,
          importance := importance, created_at := t,
          summary_preview := summary.take 100 }
      let (pid, st4) := fresh st3
      (Except.ok (),
       { st4 with
         points := upsertPoint
                     { id := pid, vector := vector, payload := payload }
                     st4.points })
    else (Except.error (), st3)
  else (Except.ok (), st3)

/-- Mongo `memory_nodes.find_one({_id: mid})`: first document with that id. -/
def find_node (st : MemState) (mid : Nat) : Option MemoryNode :=
  st.memory_nodes.find? (fun n => n.id == mid)

/-- Mongo `update_one`: rewrite the first element satisfying `p`. -/
def updateFirst {α : Type} (p : α → Bool) (f : α → α) : List α → List α
  | [] => []
  | x :: xs => if p x then f x :: xs else x :: updateFirst p f xs

/-- `MemoryService._touch_memory`: set `last_used_at` of the (first) node
with the given id to the current time. -/
def touch (st : MemState) (mid : Nat) : MemState :=
  let (t, st1) := utcnow st
  { st1 with
    memory_nodes :=
      updateFirst (fun n => n.id == mid)
        (fun n => { n with last_used_at := t }) st1.memory_nodes }

/-- The fuse-and-fetch loop of `retrieve_context`: walk the concatenated
hits, skip already-seen memory ids, resolve the rest against the record
store (skipping silently on a miss), touching each returned node. -/
def fuseLoop (st : MemState) (seen : List Nat) (acc : List MemoryNode) :
    List IndexPoint → List MemoryNode × MemState
  | [] => (acc, st)
  | h :: rest =>
    let mid := h.payload.memory_id
    if mid ∈ seen then fuseLoop st seen acc rest
    else
      match find_node st mid with
      | some node => fuseLoop (touch st mid) (mid :: seen) (acc ++ [node]) rest
      | none => fuseLoop st (mid :: seen) acc rest

/-- The session-local recall filter: same user, same session. -/
def sessionFilter (user_id session_id : String) (p : IndexPoint) : Bool :=
  p.payload.user_id == user_id && p.payload.session_id == session_id

/-- The cross-session recall threshold (Qdrant `Range(gte=0.7)`). -/
def GLOBAL_RECALL_THRESHOLD : ℚ := mkRat 7 10

/-- The cross-session recall filter: same user, importance at least 0.7,
session different from the current one. -/
def globalFilter (user_id session_id : String) (p : IndexPoint) : Bool :=
  p.payload.user_id == user_id
    && decide (GLOBAL_RECALL_THRESHOLD ≤ p.payload.importance)
    && !(p.payload.session_id == session_id)

/-- `MemoryService.retrieve_context`: embed the query once, run the
session-local and cross-session index queries (limit 3 each), then fuse. -/
def retrieve_context (embed : String → List ℚ) (sim : List ℚ → List ℚ → ℚ)
    (user_id session_id query : String) (st : MemState) :
    List MemoryNode × MemState :=
  let qv := embed query
  let session_hits :=
    queryPoints sim qv (sessionFilter user_id session_id) 3 st.points
  let global_hits :=
    queryPoints sim qv (globalFilter user_id session_id) 3 st.points
  fuseLoop st [] [] (session_hits ++ global_hits)

/-- `MemoryService.get_recent_messages`: fetch the session's messages most
recent first, truncate to `limit`, and reverse into chronological order. -/
def get_recent_messages (session_id : String) (limit : Nat) (st : MemState) :
    List Message :=
  (((sortDescBy (fun m => m.created_at)
      (st.messages.filter (fun m => m.session_id == session_id))).take
        limit)).reverse

/-- `MemoryService.clear_memories(user_id)` with a user given: delete that
user's nodes from Mongo (reporting the deleted count) and that user's
points from Qdrant; messages are untouched. -/
def clear_memories_user (user_id : String) (st : MemState) :
    Nat × MemState :=
  let deleted := (st.memory_nodes.filter (fun n => n.user_id == user_id)).length
  (deleted,
   { st with
     memory_nodes := st.memory_nodes.filter (fun n => !(n.user_id == user_id)),
     points := st.points.filter (fun p => !(p.payload.user_id == user_id)) })

/-- `MemoryService.clear_memories()` with no user: wipe every memory node
and every index point; messages are untouched. -/
def clear_memories_all (st : MemState) : MemState :=
  { st with memory_nodes := [], points := [] }

/-- Deduplication by first occurrence relative to an already-seen set:
the order in which the fuse loop processes memory ids. -/
def dedupSeen (seen : List Nat) : List Nat → List Nat
  | [] => []
  | m :: ms => if m ∈ seen then dedupSeen seen ms
               else m :: dedupSeen (m :: seen) ms

/-- The memory node that `promote_memory` writes when called in state `st`. -/
def promotedNode (user_id session_id summary : String) (importance : ℚ)
    (m_type : String) (raw_refs : List Nat) (st : MemState) : MemoryNode :=
  { id := st.nextId, user_id := user_id, session_id := session_id,
    m_type := m_type, summary := summary, raw_refs := raw_refs,
    importance := importance, last_used_at := st.now, created_at := st.now }

/-- The index point that `promote_memory` upserts when called in state `st`
with importance above the threshold. -/
def promotedEntry (embed : String → List ℚ)
    (user_id session_id summary : String) (importance : ℚ)
    (m_type : String) (st : MemState) : IndexPoint :=
  { id := st.nextId + 1, vector := embed summary,
    payload :=
      { memory_id := st.nextId, user_id := user_id, session_id := session_id,
        m_type := m_type, importance := importance, created_at := st.now,
        summary_preview := summary.take 100 } }

/-- A degenerate embedder, used to instantiate the opaque embedder in
concrete executions. -/
def embed0 : String → List ℚ := fun _ => []

/-- A degenerate similarity scorer for concrete executions. -/
def sim0 : List ℚ → List ℚ → ℚ := fun _ _ => 0

/-- The empty initial state. -/
def st0 : MemState :=
  { messages := [], memory_nodes := [], points := [], nextId := 0, now := 0 }

end AgenticMemory

namespace AgenticMemory

/-- C10: `add_message` accepts any string as role; it builds a `Message`
with a fresh id (not used by any existing message) and the current
timestamp, inserts it into the messages collection unmodified, returns the
new id, and changes nothing else. -/
theorem add_message_any_role (user_id session_id role content : String)
    (st : MemState) (hfresh : ∀ m ∈ st.messages, m.id ≠ st.nextId) :
    (add_message user_id session_id role content st).fst = st.nextId ∧
    st.nextId ∉ st.messages.map Message.id ∧
    (add_message user_id session_id role content st).snd.messages =
      st.messages ++
        [{ id := st.nextId, session_id := session_id, user_id := user_id,
           role := role, content := content, created_at := st.now }] ∧
    (add_message user_id session_id role content st).snd.memory_nodes =
      st.memory_nodes ∧
    (add_message user_id session_id role content st).snd.points = st.points := by
  refine ⟨rfl, ?_, rfl, rfl, rfl⟩
  simp only [List.mem_map, not_exists]
  rintro m ⟨hm, hid⟩
  exact hfresh m hm hid

/-- C10 witness: a concrete call with a role outside the documented enum. -/
theorem add_message_any_role_witness :
    (add_message "u1" "s1" "weird_role" "hello" st0).fst = st0.nextId ∧
    st0.nextId ∉ st0.messages.map Message.id ∧
    (add_message "u1" "s1" "weird_role" "hello" st0).snd.messages =
      st0.messages ++
        [{ id := st0.nextId, session_id := "s1", user_id := "u1",
           role := "weird_role", content := "hello",
           created_at := st0.now }] ∧
    (add_message "u1" "s1" "weird_role" "hello" st0).snd.memory_nodes =
      st0.memory_nodes ∧
    (add_message "u1" "s1" "weird_role" "hello" st0).snd.points =
      st0.points :=
  add_message_any_role "u1" "s1" "weird_role" "hello" st0
    (by intro m hm; simp [st0] at hm)

/-- C9: `promote_memory` performs no range validation of importance: for
every rational importance value, including negative values and values above
one, the node is written with exactly that value, and the index entry is
created exactly when the value is strictly greater than the 0.3 threshold. -/
theorem promote_memory_no_range_validation (embed : String → List ℚ)
    (user_id session_id summary : String) (importance : ℚ)
    (m_type : String) (raw_refs : List Nat) (st : MemState) :
    (promote_memory embed user_id session_id summary importance m_type
        raw_refs st).memory_nodes =
      st.memory_nodes ++
        [promotedNode user_id session_id summary importance m_type raw_refs st] ∧
    (promote_memory embed user_id session_id summary importance m_type
        raw_refs st).points =
      (if PROMOTION_THRESHOLD < importance then
        upsertPoint
          (promotedEntry embed user_id session_id summary importance m_type st)
          st.points
      else st.points) := by
  constructor
  · by_cases h : PROMOTION_THRESHOLD < importance <;>
      simp [promote_memory, fresh, utcnow, promotedNode, h]
  · by_cases h : PROMOTION_THRESHOLD < importance <;>
      simp [promote_memory, fresh, utcnow, promotedEntry, h]

/-- C1: `promote_memory` writes the memory node unconditionally, and
afterwards the number of index points whose payload references the new
node's id is one when importance is strictly above the 0.3 threshold and
zero otherwise, provided no pre-existing point referenced the fresh id. -/
theorem promote_memory_index_entry_iff (embed : String → List ℚ)
    (user_id session_id summary : String) (importance : ℚ)
    (m_type : String) (raw_refs : List Nat) (st : MemState)
    (hfresh : ∀ p ∈ st.points, p.payload.memory_id ≠ st.nextId) :
    (promote_memory embed user_id session_id summary importance m_type
        raw_refs st).memory_nodes =
      st.memory_nodes ++
        [promotedNode user_id session_id summary importance m_type raw_refs st] ∧
    ((promote_memory embed user_id session_id summary importance m_type
          raw_refs st).points.filter
        (fun p => p.payload.memory_id == st.nextId)).length =
      (if PROMOTION_THRESHOLD < importance then 1 else 0) := by
  have hold : (st.points.filter
      (fun p => p.payload.memory_id == st.nextId)) = [] := by
    rw [List.filter_eq_nil_iff]
    intro p hp
    simpa using hfresh p hp
  by_cases h : PROMOTION_THRESHOLD < importance
  · refine ⟨by simp [promote_memory, fresh, utcnow, promotedNode, h], ?_⟩
    simp only [promote_memory, fresh, utcnow, h, if_true, upsertPoint]
    simp only [List.filter_append, List.filter_filter]
    have hold2 : (st.points.filter
        (fun p => p.payload.memory_id == st.nextId &&
          !(p.id == st.nextId + 1))) = [] := by
      rw [List.filter_eq_nil_iff]
      intro p hp
      simp only [Bool.and_eq_true, beq_iff_eq, not_and]
      intro hmem
      exact absurd hmem (hfresh p hp)
    simp [hold2]
  · refine ⟨by simp [promote_memory, fresh, utcnow, promotedNode, h], ?_⟩
    simp only [promote_memory, fresh, utcnow, h, if_false]
    simp [hold]

/-- C1 witness: promoting with importance 0.9 into the empty state. -/
theorem promote_memory_index_entry_iff_witness :
    (promote_memory embed0 "u1" "sA" "m1" (mkRat 9 10) "episodic" []
        st0).memory_nodes =
      st0.memory_nodes ++
        [promotedNode "u1" "sA" "m1" (mkRat 9 10) "episodic" [] st0] ∧
    ((promote_memory embed0 "u1" "sA" "m1" (mkRat 9 10) "episodic" []
          st0).points.filter
        (fun p => p.payload.memory_id == st0.nextId)).length =
      (if PROMOTION_THRESHOLD < mkRat 9 10 then 1 else 0) :=
  promote_memory_index_entry_iff embed0 "u1" "sA" "m1" (mkRat 9 10) "episodic" []
    st0 (by intro p hp; simp [st0] at hp)

/-- C4 counterexample: with the step-2 index write failing, the call
raises (`Except.error`) for a concrete promotion with importance 0.9,
contradicting the claim that a step-2 failure does not raise to the
caller: the Python body has no exception handling around step 2. -/
theorem promote_step2_failure_raises :
    (promote_memoryE embed0 false "u1" "sA" "m1" (mkRat 9 10) "episodic" []
        st0).fst = Except.error () := by
  rfl

/-- C4 amended: if step 2 of `promote_memory` (the index upsert) fails,
the exception propagates to the caller, but step 1 is not rolled back: the
memory node written in step 1 is still in the record store, and the index
is unchanged. -/
theorem promote_step2_failure_no_rollback (embed : String → List ℚ)
    (user_id session_id summary : String) (importance : ℚ)
    (m_type : String) (raw_refs : List Nat) (st : MemState)
    (himp : PROMOTION_THRESHOLD < importance) :
    (promote_memoryE embed false user_id session_id summary importance
        m_type raw_refs st).fst = Except.error () ∧
    (promote_memoryE embed false user_id session_id summary importance
        m_type raw_refs st).snd.memory_nodes =
      st.memory_nodes ++
        [promotedNode user_id session_id summary importance m_type raw_refs st] ∧
    (promote_memoryE embed false user_id session_id summary importance
        m_type raw_refs st).snd.points = st.points ∧
    (promote_memoryE embed false user_id session_id summary importance
        m_type raw_refs st).snd.messages = st.messages := by
  simp [promote_memoryE, fresh, utcnow, promotedNode, himp]

/-- C4 amended witness: the no-rollback theorem at a concrete promotion. -/
theorem promote_step2_failure_no_rollback_witness :
    (promote_memoryE embed0 false "u1" "sA" "m1" (mkRat 9 10) "episodic" []
        st0).fst = Except.error () ∧
    (promote_memoryE embed0 false "u1" "sA" "m1" (mkRat 9 10) "episodic" []
        st0).snd.memory_nodes =
      st0.memory_nodes ++
        [promotedNode "u1" "sA" "m1" (mkRat 9 10) "episodic" [] st0] ∧
    (promote_memoryE embed0 false "u1" "sA" "m1" (mkRat 9 10) "episodic" []
        st0).snd.points = st0.points ∧
    (promote_memoryE embed0 false "u1" "sA" "m1" (mkRat 9 10) "episodic" []
        st0).snd.messages = st0.messages :=
  promote_step2_failure_no_rollback embed0 "u1" "sA" "m1" (mkRat 9 10)
    "episodic" [] st0 (by decide)

/-- C6: `clear_memories` with a user deletes exactly that user's memory
nodes (reporting their count) and exactly the index points whose payload
user matches, never deletes any message, and is idempotent: a second
consecutive call reports zero deletions and changes nothing. -/
theorem clear_memories_user_spec (user_id : String) (st : MemState) :
    (clear_memories_user user_id st).fst =
      (st.memory_nodes.filter (fun n => n.user_id == user_id)).length ∧
    (clear_memories_user user_id st).snd.messages = st.messages ∧
    (clear_memories_user user_id st).snd.memory_nodes =
      st.memory_nodes.filter (fun n => !(n.user_id == user_id)) ∧
    (clear_memories_user user_id st).snd.points =
      st.points.filter (fun p => !(p.payload.user_id == user_id)) ∧
    clear_memories_user user_id (clear_memories_user user_id st).snd =
      (0, (clear_memories_user user_id st).snd) := by
  refine ⟨rfl, rfl, rfl, rfl, ?_⟩
  simp [clear_memories_user, Prod.ext_iff, MemState.mk.injEq,
    List.filter_filter]

/-- Inserting with `insertDescBy` is a permutation-respecting cons. -/
lemma insertDescBy_perm {α β : Type} [LinearOrder β] (key : α → β) (x : α)
    (l : List α) : List.Perm (insertDescBy key x l) (x :: l) := by
  induction l with
  | nil => simp [insertDescBy]
  | cons y ys ih =>
    simp only [insertDescBy]
    split
    · exact (ih.cons y).trans (List.Perm.swap x y ys)
    · exact List.Perm.refl _

/-- `sortDescBy` permutes its input. -/
lemma sortDescBy_perm {α β : Type} [LinearOrder β] (key : α → β)
    (l : List α) : List.Perm (sortDescBy key l) l := by
  have main : ∀ (l acc : List α),
      List.Perm (l.foldl (fun acc x => insertDescBy key x acc) acc)
        (l ++ acc) := by
    intro l
    induction l with
    | nil => intro acc; simp
    | cons x xs ih =>
      intro acc
      have h1 : List.Perm
          (xs.foldl (fun acc x => insertDescBy key x acc)
            (insertDescBy key x acc))
          (xs ++ insertDescBy key x acc) := ih _
      have h2 : List.Perm (xs ++ insertDescBy key x acc) (xs ++ (x :: acc)) :=
        List.Perm.append_left xs (insertDescBy_perm key x acc)
      have h3 : List.Perm (xs ++ (x :: acc)) (x :: (xs ++ acc)) :=
        List.perm_middle
      exact (h1.trans (h2.trans h3))
  simpa using main l []

/-- `insertDescBy` preserves descending sortedness by the key. -/
lemma insertDescBy_sorted {α β : Type} [LinearOrder β] (key : α → β)
    (x : α) (l : List α)
    (h : l.Pairwise (fun a b => key b ≤ key a)) :
    (insertDescBy key x l).Pairwise (fun a b => key b ≤ key a) := by
  induction l with
  | nil => simp [insertDescBy]
  | cons y ys ih =>
    rw [List.pairwise_cons] at h
    obtain ⟨hy, hys⟩ := h
    simp only [insertDescBy]
    split
    · rename_i hle
      rw [List.pairwise_cons]
      refine ⟨?_, ih hys⟩
      intro z hz
      rcases List.mem_cons.mp ((insertDescBy_perm key x ys).mem_iff.mp hz)
        with hz | hz
      · subst hz; exact hle
      · exact hy z hz
    · rename_i hgt
      push_neg at hgt
      rw [List.pairwise_cons]
      constructor
      · intro z hz
        rcases List.mem_cons.mp hz with hz | hz
        · subst hz; exact le_of_lt hgt
        · exact le_trans (hy z hz) (le_of_lt hgt)
      · exact List.pairwise_cons.mpr ⟨hy, hys⟩

/-- `sortDescBy` sorts descending by the key. -/
lemma sortDescBy_sorted {α β : Type} [LinearOrder β] (key : α → β)
    (l : List α) :
    (sortDescBy key l).Pairwise (fun a b => key b ≤ key a) := by
  have main : ∀ (l acc : List α),
      acc.Pairwise (fun a b => key b ≤ key a) →
      (l.foldl (fun acc x => insertDescBy key x acc) acc).Pairwise
        (fun a b => key b ≤ key a) := by
    intro l
    induction l with
    | nil => intro acc h; simpa using h
    | cons x xs ih =>
      intro acc h
      exact ih _ (insertDescBy_sorted key x acc h)
  exact main l [] (by simp)

/-- C5: `get_recent_messages` returns messages of the requested session in
chronologically ascending order; the result's length is the minimum of the
limit and the session's message count; and every session message left out
is no newer than any returned one (the returned window is the most recent
one). -/
theorem get_recent_messages_spec (session_id : String) (limit : Nat)
    (st : MemState) :
    (get_recent_messages session_id limit st).length =
      min limit
        ((st.messages.filter (fun m => m.session_id == session_id)).length) ∧
    (get_recent_messages session_id limit st).Pairwise
      (fun a b => a.created_at ≤ b.created_at) ∧
    (∀ m ∈ get_recent_messages session_id limit st,
       m.session_id = session_id ∧ m ∈ st.messages) ∧
    (∀ b ∈ st.messages.filter (fun m => m.session_id == session_id),
       b ∉ get_recent_messages session_id limit st →
       ∀ a ∈ get_recent_messages session_id limit st,
         b.created_at ≤ a.created_at) := by
  set L := st.messages.filter (fun m => m.session_id == session_id) with hL
  set S := sortDescBy (fun m => m.created_at) L with hS
  have hperm : List.Perm S L := sortDescBy_perm _ L
  have hsorted : S.Pairwise (fun a b => b.created_at ≤ a.created_at) :=
    sortDescBy_sorted _ L
  have hres : get_recent_messages session_id limit st =
      (S.take limit).reverse := rfl
  refine ⟨?_, ?_, ?_, ?_⟩
  · rw [hres, List.length_reverse, List.length_take, hperm.length_eq]
  · rw [hres, List.pairwise_reverse]
    exact List.Pairwise.sublist (List.take_sublist limit S) hsorted
  · intro m hm
    rw [hres, List.mem_reverse] at hm
    have hmem : m ∈ L := hperm.mem_iff.mp ((List.take_sublist limit S).mem hm)
    rw [hL, List.mem_filter] at hmem
    exact ⟨by simpa using hmem.2, hmem.1⟩
  · intro b hb hbnot a ha
    rw [hres, List.mem_reverse] at ha hbnot
    have hbS : b ∈ S := hperm.mem_iff.mpr hb
    rw [← List.take_append_drop limit S] at hbS
    rcases List.mem_append.mp hbS with hbt | hbd
    · exact absurd hbt hbnot
    · have hsplit := hsorted
      rw [← List.take_append_drop limit S, List.pairwise_append] at hsplit
      exact hsplit.2.2 a ha b hbd

/-- A successful record-store lookup returns a node carrying the queried
id, taken from the store. -/
lemma find_node_eq_id {st : MemState} {mid : Nat} {n : MemoryNode}
    (h : find_node st mid = some n) : n.id = mid ∧ n ∈ st.memory_nodes := by
  unfold find_node at h
  refine ⟨by simpa using List.find?_some h, List.mem_of_find?_eq_some h⟩

/-- `updateFirst` with an id-preserving rewrite leaves lookups for other
ids unchanged. -/
lemma find?_updateFirst_touch (t mid m : Nat) (h : m ≠ mid)
    (l : List MemoryNode) :
    (updateFirst (fun n => n.id == mid)
        (fun n => { n with last_used_at := t }) l).find?
      (fun n => n.id == m) = l.find? (fun n => n.id == m) := by
  induction l with
  | nil => rfl
  | cons x xs ih =>
    by_cases hx : x.id = mid
    · have hxm : ¬ x.id = m := by rw [hx]; exact fun e => h e.symm
      have hstep : updateFirst (fun n => n.id == mid)
          (fun n => { n with last_used_at := t }) (x :: xs) =
            { x with last_used_at := t } :: xs := by
        simp [updateFirst, hx]
      rw [hstep, List.find?_cons_of_neg _ (by simpa using hxm),
        List.find?_cons_of_neg _ (by simpa using hxm)]
    · have hstep : updateFirst (fun n => n.id == mid)
          (fun n => { n with last_used_at := t }) (x :: xs) =
            x :: updateFirst (fun n => n.id == mid)
              (fun n => { n with last_used_at := t }) xs := by
        simp [updateFirst, hx]
      rw [hstep]
      by_cases hm : x.id = m
      · rw [List.find?_cons_of_pos _ (by simpa using hm),
          List.find?_cons_of_pos _ (by simpa using hm)]
      · rw [List.find?_cons_of_neg _ (by simpa using hm),
          List.find?_cons_of_neg _ (by simpa using hm)]
        exact ih

/-- Touching one memory id leaves lookups of any other id unchanged. -/
lemma find_node_touch {st : MemState} {mid m : Nat} (h : m ≠ mid) :
    find_node (touch st mid) m = find_node st m :=
  find?_updateFirst_touch st.now mid m h st.memory_nodes

/-- `updateFirst` with an id-preserving rewrite preserves the id column. -/
lemma updateFirst_map_id (t mid : Nat) (l : List MemoryNode) :
    (updateFirst (fun n => n.id == mid)
        (fun n => { n with last_used_at := t }) l).map MemoryNode.id =
      l.map MemoryNode.id := by
  induction l with
  | nil => rfl
  | cons x xs ih =>
    by_cases hx : x.id = mid <;> simp [updateFirst, hx, ih]

/-- The state frame of the fuse loop: it never changes messages, index
points, the id counter, or the id column of the node store, and the clock
only advances. -/
lemma fuseLoop_snd_frame (hits : List IndexPoint) :
    ∀ (st : MemState) (seen : List Nat) (acc : List MemoryNode),
    (fuseLoop st seen acc hits).snd.messages = st.messages ∧
    (fuseLoop st seen acc hits).snd.points = st.points ∧
    (fuseLoop st seen acc hits).snd.nextId = st.nextId ∧
    st.now ≤ (fuseLoop st seen acc hits).snd.now ∧
    (fuseLoop st seen acc hits).snd.memory_nodes.map MemoryNode.id =
      st.memory_nodes.map MemoryNode.id := by
  induction hits with
  | nil => intro st seen acc; exact ⟨rfl, rfl, rfl, le_refl _, rfl⟩
  | cons h rest ih =>
    intro st seen acc
    simp only [fuseLoop]
    split
    · exact ih st seen acc
    · cases hfd : find_node st h.payload.memory_id with
      | some node =>
        simp only [hfd]
        obtain ⟨h1, h2, h3, h4, h5⟩ :=
          ih (touch st h.payload.memory_id) (h.payload.memory_id :: seen)
            (acc ++ [node])
        refine ⟨h1, h2, h3, ?_, ?_⟩
        · exact le_trans (Nat.le_succ st.now) h4
        · rw [h5]
          exact updateFirst_map_id st.now h.payload.memory_id st.memory_nodes
      | none =>
        simp only [hfd]
        exact ih st (h.payload.memory_id :: seen) acc

/-- The accumulator of the fuse loop only prefixes the result and does not
influence the final state. -/
lemma fuseLoop_acc (hits : List IndexPoint) :
    ∀ (st : MemState) (seen : List Nat) (acc : List MemoryNode),
    fuseLoop st seen acc hits =
      (acc ++ (fuseLoop st seen [] hits).fst, (fuseLoop st seen [] hits).snd) := by
  induction hits with
  | nil => intro st seen acc; simp [fuseLoop]
  | cons h rest ih =>
    intro st seen acc
    simp only [fuseLoop]
    split
    · exact ih st seen acc
    · cases hfd : find_node st h.payload.memory_id with
      | some node =>
        simp only [hfd]
        rw [ih _ _ (acc ++ [node]), ih _ _ ([] ++ [node])]
        simp
      | none =>
        simp only [hfd]
        exact ih st _ acc

/-- Every memory id in the fuse-loop output was not already seen. -/
lemma fuseLoop_fst_ids_not_seen (hits : List IndexPoint) :
    ∀ (st : MemState) (seen : List Nat) (m : Nat),
    m ∈ (fuseLoop st seen [] hits).fst.map MemoryNode.id → m ∉ seen := by
  induction hits with
  | nil => intro st seen m hm; simp [fuseLoop] at hm
  | cons h rest ih =>
    intro st seen m hm
    simp only [fuseLoop] at hm
    by_cases hs : h.payload.memory_id ∈ seen
    · rw [if_pos hs] at hm
      exact ih st seen m hm
    · rw [if_neg hs] at hm
      cases hfd : find_node st h.payload.memory_id with
      | some node =>
        simp only [hfd] at hm
        rw [fuseLoop_acc rest (touch st h.payload.memory_id)
          (h.payload.memory_id :: seen) ([] ++ [node])] at hm
        simp only [List.nil_append, List.singleton_append, List.map_cons] at hm
        rcases List.mem_cons.mp hm with hm' | hm'
        · rw [hm', (find_node_eq_id hfd).1]
          exact hs
        · intro hin
          exact ih _ _ m hm' (List.mem_cons_of_mem _ hin)
      | none =>
        simp only [hfd] at hm
        have := ih _ _ m hm
        intro hin
        exact this (List.mem_cons_of_mem _ hin)

/-- Membership in a deduplicated list: present in the input and not
already seen. -/
lemma mem_dedupSeen_iff (l : List Nat) :
    ∀ (seen : List Nat) (m : Nat),
    m ∈ dedupSeen seen l ↔ m ∈ l ∧ m ∉ seen := by
  induction l with
  | nil => intro seen m; simp [dedupSeen]
  | cons x xs ih =>
    intro seen m
    by_cases hx : x ∈ seen
    · rw [dedupSeen, if_pos hx, ih]
      constructor
      · rintro ⟨h1, h2⟩; exact ⟨List.mem_cons_of_mem _ h1, h2⟩
      · rintro ⟨h1, h2⟩
        rcases List.mem_cons.mp h1 with rfl | h1
        · exact absurd hx h2
        · exact ⟨h1, h2⟩
    · rw [dedupSeen, if_neg hx]
      constructor
      · intro h
        rcases List.mem_cons.mp h with rfl | h
        · exact ⟨List.mem_cons_self _ _, hx⟩
        · obtain ⟨h1, h2⟩ := (ih _ _).mp h
          refine ⟨List.mem_cons_of_mem _ h1, fun hc => h2 (List.mem_cons_of_mem _ hc)⟩
      · rintro ⟨h1, h2⟩
        rcases List.mem_cons.mp h1 with rfl | h1
        · exact List.mem_cons_self _ _
        · by_cases hmx : m = x
          · subst hmx; exact List.mem_cons_self _ _
          · exact List.mem_cons_of_mem _
              ((ih _ _).mpr ⟨h1, by
                intro hc
                rcases List.mem_cons.mp hc with hc | hc
                · exact hmx hc
                · exact h2 hc⟩)

/-- The deduplicated list has no duplicates. -/
lemma dedupSeen_nodup (l : List Nat) :
    ∀ (seen : List Nat), (dedupSeen seen l).Nodup := by
  induction l with
  | nil => intro seen; simp [dedupSeen]
  | cons x xs ih =>
    intro seen
    by_cases hx : x ∈ seen
    · rw [dedupSeen, if_pos hx]; exact ih seen
    · rw [dedupSeen, if_neg hx]
      refine List.nodup_cons.mpr ⟨?_, ih _⟩
      intro hc
      exact ((mem_dedupSeen_iff xs _ x).mp hc).2 (List.mem_cons_self _ _)

/-- The seen-set accumulated while deduplicating a list. -/
def accSeen (seen : List Nat) (l : List Nat) : List Nat :=
  l.foldl (fun s m => if m ∈ s then s else m :: s) seen

/-- Membership in the accumulated seen-set. -/
lemma accSeen_mem (l : List Nat) :
    ∀ (seen : List Nat) (x : Nat),
    x ∈ accSeen seen l ↔ x ∈ seen ∨ x ∈ l := by
  induction l with
  | nil => intro seen x; simp [accSeen]
  | cons m ms ih =>
    intro seen x
    by_cases hm : m ∈ seen
    · have : accSeen seen (m :: ms) = accSeen seen ms := by
        simp [accSeen, hm]
      rw [this, ih]
      constructor
      · rintro (h | h)
        · exact Or.inl h
        · exact Or.inr (List.mem_cons_of_mem _ h)
      · rintro (h | h)
        · exact Or.inl h
        · rcases List.mem_cons.mp h with rfl | h
          · exact Or.inl hm
          · exact Or.inr h
    · have : accSeen seen (m :: ms) = accSeen (m :: seen) ms := by
        simp [accSeen, hm]
      rw [this, ih]
      constructor
      · rintro (h | h)
        · rcases List.mem_cons.mp h with rfl | h
          · exact Or.inr (List.mem_cons_self _ _)
          · exact Or.inl h
        · exact Or.inr (List.mem_cons_of_mem _ h)
      · rintro (h | h)
        · exact Or.inl (List.mem_cons_of_mem _ h)
        · rcases List.mem_cons.mp h with rfl | h
          · exact Or.inl (List.mem_cons_self _ _)
          · exact Or.inr h

/-- Deduplicating a concatenation splits into the two halves, the second
relative to the seen-set accumulated over the first. -/
lemma dedupSeen_append (l₁ : List Nat) :
    ∀ (l₂ seen : List Nat),
    dedupSeen seen (l₁ ++ l₂) =
      dedupSeen seen l₁ ++ dedupSeen (accSeen seen l₁) l₂ := by
  induction l₁ with
  | nil => intro l₂ seen; simp [dedupSeen, accSeen]
  | cons m ms ih =>
    intro l₂ seen
    by_cases hm : m ∈ seen
    · have hacc : accSeen seen (m :: ms) = accSeen seen ms := by
        simp [accSeen, hm]
      rw [List.cons_append, dedupSeen, if_pos hm, dedupSeen, if_pos hm, hacc]
      exact ih l₂ seen
    · have hacc : accSeen seen (m :: ms) = accSeen (m :: seen) ms := by
        simp [accSeen, hm]
      rw [List.cons_append, dedupSeen, if_neg hm, dedupSeen, if_neg hm, hacc]
      rw [List.cons_append]
      exact congrArg (m :: ·) (ih l₂ (m :: seen))

/-- The fuse-loop result is the deduplicated hit-id sequence resolved
against the record store of the entry state: one value-level loop
invariant covering ordering, deduplication, and silent skipping. -/
lemma fuseLoop_fst_eq (hits : List IndexPoint) :
    ∀ (st : MemState) (seen : List Nat),
    (fuseLoop st seen [] hits).fst =
      (dedupSeen seen (hits.map (fun h => h.payload.memory_id))).filterMap
        (find_node st) := by
  induction hits with
  | nil => intro st seen; rfl
  | cons h rest ih =>
    intro st seen
    simp only [fuseLoop, List.map_cons, dedupSeen]
    by_cases hs : h.payload.memory_id ∈ seen
    · rw [if_pos hs, if_pos hs]
      exact ih st seen
    · rw [if_neg hs, if_neg hs]
      cases hfd : find_node st h.payload.memory_id with
      | some node =>
        simp only [List.filterMap_cons, hfd]
        rw [fuseLoop_acc rest (touch st h.payload.memory_id)
          (h.payload.memory_id :: seen) ([] ++ [node])]
        simp only [List.nil_append, List.singleton_append]
        rw [ih (touch st h.payload.memory_id) (h.payload.memory_id :: seen)]
        refine congrArg (node :: ·) (List.filterMap_congr ?_)
        intro m hmL
        have hm1 : m ∉ (h.payload.memory_id :: seen) :=
          ((mem_dedupSeen_iff _ _ _).mp hmL).2
        exact find_node_touch (fun e => hm1 (e ▸ List.mem_cons_self _ _))
      | none =>
        simp only [List.filterMap_cons, hfd]
        exact ih st (h.payload.memory_id :: seen)

/-- Resolving a list of ids and projecting back to ids is the same as
keeping the ids that resolve: a found node carries the id it was found by. -/
lemma filterMap_find_node_map_id (st : MemState) (L : List Nat) :
    (L.filterMap (find_node st)).map MemoryNode.id =
      L.filter (fun m => (find_node st m).isSome) := by
  induction L with
  | nil => rfl
  | cons m ms ih =>
    cases hfd : find_node st m with
    | some node =>
      simp only [List.filterMap_cons, hfd, List.map_cons, ih,
        List.filter_cons]
      rw [(find_node_eq_id hfd).1]
      simp [hfd]
    | none =>
      simp only [List.filterMap_cons, hfd, List.filter_cons]
      simp [hfd, ih]

/-- The session-local recall stage of `retrieve_context`. -/
def session_hits (embed : String → List ℚ) (sim : List ℚ → List ℚ → ℚ)
    (user_id session_id query : String) (st : MemState) : List IndexPoint :=
  queryPoints sim (embed query) (sessionFilter user_id session_id) 3 st.points

/-- The cross-session recall stage of `retrieve_context`. -/
def global_hits (embed : String → List ℚ) (sim : List ℚ → List ℚ → ℚ)
    (user_id session_id query : String) (st : MemState) : List IndexPoint :=
  queryPoints sim (embed query) (globalFilter user_id session_id) 3 st.points

/-- C7: a semantic-index hit whose memory id has no node in the record
store is skipped silently: the result is exactly the deduplicated hit
sequence resolved against the record store, so each remaining hit's node
is still returned and no missing id ever appears in the result. -/
theorem retrieve_context_skips_missing (embed : String → List ℚ)
    (sim : List ℚ → List ℚ → ℚ) (user_id session_id query : String)
    (st : MemState) :
    (retrieve_context embed sim user_id session_id query st).fst =
      (dedupSeen []
        ((session_hits embed sim user_id session_id query st ++
          global_hits embed sim user_id session_id query st).map
          (fun h => h.payload.memory_id))).filterMap (find_node st) ∧
    (∀ m : Nat, find_node st m = none →
      m ∉ (retrieve_context embed sim user_id session_id query st).fst.map
        MemoryNode.id) := by
  have hmain :
      (retrieve_context embed sim user_id session_id query st).fst =
        (dedupSeen []
          ((session_hits embed sim user_id session_id query st ++
            global_hits embed sim user_id session_id query st).map
            (fun h => h.payload.memory_id))).filterMap (find_node st) :=
    fuseLoop_fst_eq _ st []
  refine ⟨hmain, ?_⟩
  intro m hm hmem
  rw [hmain, filterMap_find_node_map_id] at hmem
  have hp := List.of_mem_filter hmem
  rw [hm] at hp
  simp at hp

/-- A state with one stored node (id 1) and two session-local index
points, one of which references the missing memory id 0. -/
def stDangling : MemState :=
  { st0 with
    memory_nodes :=
      [{ id := 1, user_id := "u1", session_id := "s1",
         m_type := "episodic", summary := "kept",
         raw_refs := [], importance := mkRat 9 10,
         last_used_at := 0, created_at := 0 }],
    points :=
      [{ id := 10, vector := [],
         payload :=
           { memory_id := 0, user_id := "u1", session_id := "s1",
             m_type := "episodic", importance := mkRat 9 10,
             created_at := 0, summary_preview := "gone" } },
       { id := 11, vector := [],
         payload :=
           { memory_id := 1, user_id := "u1", session_id := "s1",
             m_type := "episodic", importance := mkRat 9 10,
             created_at := 0, summary_preview := "kept" } }],
    now := 5 }

/-- C7 witness: two session-local hits, one of which references a memory
id missing from the record store. -/
theorem retrieve_context_skips_missing_witness :
    (retrieve_context embed0 sim0 "u1" "s1" "q" stDangling).fst =
      (dedupSeen []
        ((session_hits embed0 sim0 "u1" "s1" "q" stDangling ++
          global_hits embed0 sim0 "u1" "s1" "q" stDangling).map
          (fun h => h.payload.memory_id))).filterMap (find_node stDangling) ∧
    (∀ m : Nat, find_node stDangling m = none →
      m ∉ (retrieve_context embed0 sim0 "u1" "s1" "q"
          stDangling).fst.map MemoryNode.id) :=
  retrieve_context_skips_missing embed0 sim0 "u1" "s1" "q" stDangling

/-- C2: the fused result of `retrieve_context` is the session-local hits
(in rank order) followed by the cross-session hits, deduplicated by memory
id with the first occurrence winning, each resolved against the record
store; a memory id present in both hit sets that resolves is returned
exactly once, at the position determined by the session-local hits alone. -/
theorem retrieve_context_fusion_order (embed : String → List ℚ)
    (sim : List ℚ → List ℚ → ℚ) (user_id session_id query : String)
    (st : MemState) :
    (retrieve_context embed sim user_id session_id query st).fst.map
        MemoryNode.id =
      (dedupSeen []
          ((session_hits embed sim user_id session_id query st).map
            (fun h => h.payload.memory_id))).filter
          (fun m => (find_node st m).isSome) ++
        (dedupSeen
          (accSeen []
            ((session_hits embed sim user_id session_id query st).map
              (fun h => h.payload.memory_id)))
          ((global_hits embed sim user_id session_id query st).map
            (fun h => h.payload.memory_id))).filter
          (fun m => (find_node st m).isSome) ∧
    ∀ m : Nat,
      m ∈ (session_hits embed sim user_id session_id query st).map
        (fun h => h.payload.memory_id) →
      m ∈ (global_hits embed sim user_id session_id query st).map
        (fun h => h.payload.memory_id) →
      (find_node st m).isSome = true →
      List.count m
          ((retrieve_context embed sim user_id session_id query st).fst.map
            MemoryNode.id) = 1 ∧
      List.indexOf m
          ((retrieve_context embed sim user_id session_id query st).fst.map
            MemoryNode.id) =
        List.indexOf m
          ((dedupSeen []
              ((session_hits embed sim user_id session_id query st).map
                (fun h => h.payload.memory_id))).filter
            (fun m => (find_node st m).isSome)) := by
  have hmain :
      (retrieve_context embed sim user_id session_id query st).fst.map
          MemoryNode.id =
        (dedupSeen []
            ((session_hits embed sim user_id session_id query st).map
              (fun h => h.payload.memory_id))).filter
            (fun m => (find_node st m).isSome) ++
          (dedupSeen
            (accSeen []
              ((session_hits embed sim user_id session_id query st).map
                (fun h => h.payload.memory_id)))
            ((global_hits embed sim user_id session_id query st).map
              (fun h => h.payload.memory_id))).filter
            (fun m => (find_node st m).isSome) := by
    have h0 :
        (retrieve_context embed sim user_id session_id query st).fst =
          (dedupSeen []
            ((session_hits embed sim user_id session_id query st ++
              global_hits embed sim user_id session_id query st).map
              (fun h => h.payload.memory_id))).filterMap (find_node st) :=
      fuseLoop_fst_eq _ st []
    rw [h0, filterMap_find_node_map_id, List.map_append, dedupSeen_append,
      List.filter_append]
  refine ⟨hmain, ?_⟩
  intro m hmS hmG hsome
  have hA : m ∈ (dedupSeen []
      ((session_hits embed sim user_id session_id query st).map
        (fun h => h.payload.memory_id))).filter
      (fun m => (find_node st m).isSome) := by
    refine List.mem_filter.mpr ⟨?_, hsome⟩
    exact (mem_dedupSeen_iff _ _ _).mpr ⟨hmS, by simp⟩
  have hB : m ∉ (dedupSeen
      (accSeen []
        ((session_hits embed sim user_id session_id query st).map
          (fun h => h.payload.memory_id)))
      ((global_hits embed sim user_id session_id query st).map
        (fun h => h.payload.memory_id))).filter
      (fun m => (find_node st m).isSome) := by
    intro hc
    have hc1 := (List.mem_filter.mp hc).1
    have hc2 := ((mem_dedupSeen_iff _ _ _).mp hc1).2
    exact hc2 ((accSeen_mem _ _ _).mpr (Or.inr hmS))
  constructor
  · rw [hmain, List.count_append]
    have hcA : List.count m ((dedupSeen []
        ((session_hits embed sim user_id session_id query st).map
          (fun h => h.payload.memory_id))).filter
        (fun m => (find_node st m).isSome)) = 1 :=
      List.count_eq_one_of_mem
        (List.Nodup.filter _ (dedupSeen_nodup _ _)) hA
    have hcB : List.count m ((dedupSeen
        (accSeen []
          ((session_hits embed sim user_id session_id query st).map
            (fun h => h.payload.memory_id)))
        ((global_hits embed sim user_id session_id query st).map
          (fun h => h.payload.memory_id))).filter
        (fun m => (find_node st m).isSome)) = 0 :=
      List.count_eq_zero.mpr hB
    rw [hcA, hcB]
  · rw [hmain]
    exact List.indexOf_append_of_mem hA

/-- A state where the single stored node (id 0) is referenced both by a
session-local point (session s1) and by a high-importance point from
another session (s2). -/
def stBoth : MemState :=
  { st0 with
    memory_nodes :=
      [{ id := 0, user_id := "u1", session_id := "s1",
         m_type := "preference", summary := "likes python",
         raw_refs := [], importance := mkRat 9 10,
         last_used_at := 0, created_at := 0 }],
    points :=
      [{ id := 10, vector := [],
         payload :=
           { memory_id := 0, user_id := "u1", session_id := "s1",
             m_type := "preference", importance := mkRat 9 10,
             created_at := 0, summary_preview := "likes python" } },
       { id := 11, vector := [],
         payload :=
           { memory_id := 0, user_id := "u1", session_id := "s2",
             m_type := "preference", importance := mkRat 9 10,
             created_at := 0, summary_preview := "likes python" } }],
    now := 5 }

/-- C2 witness: memory id 0 is hit both session-locally and
cross-session; it is returned exactly once, at its session-local rank. -/
theorem retrieve_context_fusion_order_witness :
    (0 ∈ (session_hits embed0 sim0 "u1" "s1" "q" stBoth).map
      (fun h => h.payload.memory_id)) ∧
    (0 ∈ (global_hits embed0 sim0 "u1" "s1" "q" stBoth).map
      (fun h => h.payload.memory_id)) ∧
    (find_node stBoth 0).isSome = true ∧
    (List.count 0
        ((retrieve_context embed0 sim0 "u1" "s1" "q" stBoth).fst.map
          MemoryNode.id) = 1 ∧
      List.indexOf 0
          ((retrieve_context embed0 sim0 "u1" "s1" "q" stBoth).fst.map
            MemoryNode.id) =
        List.indexOf 0
          ((dedupSeen []
              ((session_hits embed0 sim0 "u1" "s1" "q" stBoth).map
                (fun h => h.payload.memory_id))).filter
            (fun m => (find_node stBoth m).isSome))) :=
  ⟨by decide, by decide, by decide,
    (retrieve_context_fusion_order embed0 sim0 "u1" "s1" "q" stBoth).2 0
      (by decide) (by decide) (by decide)⟩

/-- Positional effect of `updateFirst` on a duplicate-free node store:
the node with the matching id gets its timestamp rewritten, every other
position is untouched. -/
lemma updateFirst_getElem (t mid : Nat) (l : List MemoryNode)
    (hN : (l.map MemoryNode.id).Nodup) :
    ∀ (i : Nat),
    (updateFirst (fun n => n.id == mid)
        (fun n => { n with last_used_at := t }) l)[i]? =
      (l[i]?).map
        (fun n => if n.id = mid then { n with last_used_at := t } else n) := by
  induction l with
  | nil => intro i; simp [updateFirst]
  | cons x xs ih =>
    intro i
    rw [List.map_cons, List.nodup_cons] at hN
    obtain ⟨hhd, htl⟩ := hN
    by_cases hx : x.id = mid
    · have hstep : updateFirst (fun n => n.id == mid)
          (fun n => { n with last_used_at := t }) (x :: xs) =
            { x with last_used_at := t } :: xs := by
        simp [updateFirst, hx]
      rw [hstep]
      cases i with
      | zero => simp [hx]
      | succ j =>
        simp only [List.getElem?_cons_succ]
        cases hj : xs[j]? with
        | none => simp
        | some n =>
          have hn : n.id ≠ mid := by
            intro he
            apply hhd
            rw [hx, ← he]
            exact List.mem_map_of_mem MemoryNode.id (by
              obtain ⟨hlt, rfl⟩ := List.getElem?_eq_some.mp hj
              exact List.getElem_mem hlt)
          simp [hn]
    · have hstep : updateFirst (fun n => n.id == mid)
          (fun n => { n with last_used_at := t }) (x :: xs) =
            x :: updateFirst (fun n => n.id == mid)
              (fun n => { n with last_used_at := t }) xs := by
        simp [updateFirst, hx]
      rw [hstep]
      cases i with
      | zero => simp [hx]
      | succ j =>
        simp only [List.getElem?_cons_succ]
        exact ih htl j

/-- Positional effect of `touch` on a duplicate-free node store. -/
lemma touch_getElem (st : MemState) (mid : Nat)
    (hN : (st.memory_nodes.map MemoryNode.id).Nodup) (i : Nat) :
    (touch st mid).memory_nodes[i]? =
      (st.memory_nodes[i]?).map
        (fun n => if n.id = mid then { n with last_used_at := st.now }
                  else n) :=
  updateFirst_getElem st.now mid st.memory_nodes hN i

/-- The pointwise frame of the fuse loop on a duplicate-free node store:
a stored node whose id is returned has its `last_used_at` advanced to a
time at or after the call's start and is otherwise unchanged; a stored
node whose id is not returned is unchanged. -/
lemma fuseLoop_nodes_pointwise (hits : List IndexPoint) :
    ∀ (st : MemState) (seen : List Nat),
    (st.memory_nodes.map MemoryNode.id).Nodup →
    ∀ (i : Nat) (n n' : MemoryNode),
    st.memory_nodes[i]? = some n →
    (fuseLoop st seen [] hits).snd.memory_nodes[i]? = some n' →
    (n.id ∈ (fuseLoop st seen [] hits).fst.map MemoryNode.id →
      st.now ≤ n'.last_used_at ∧
      n' = { n with last_used_at := n'.last_used_at }) ∧
    (n.id ∉ (fuseLoop st seen [] hits).fst.map MemoryNode.id → n' = n) := by
  induction hits with
  | nil =>
    intro st seen _hN i n n' hn hn'
    simp only [fuseLoop] at hn'
    rw [hn] at hn'
    cases hn'
    exact ⟨fun hmem => absurd hmem (by simp [fuseLoop]), fun _ => rfl⟩
  | cons h rest ih =>
    intro st seen hN i n n' hn hn'
    by_cases hs : h.payload.memory_id ∈ seen
    · have hfe : fuseLoop st seen [] (h :: rest) = fuseLoop st seen [] rest := by
        simp only [fuseLoop, if_pos hs]
      rw [hfe] at hn' ⊢
      exact ih st seen hN i n n' hn hn'
    · cases hfd : find_node st h.payload.memory_id with
      | none =>
        have hfe : fuseLoop st seen [] (h :: rest) =
            fuseLoop st (h.payload.memory_id :: seen) [] rest := by
          simp only [fuseLoop, if_neg hs, hfd]
        rw [hfe] at hn' ⊢
        exact ih st _ hN i n n' hn hn'
      | some node =>
        have hfe : fuseLoop st seen [] (h :: rest) =
            (node :: (fuseLoop (touch st h.payload.memory_id)
                (h.payload.memory_id :: seen) [] rest).fst,
             (fuseLoop (touch st h.payload.memory_id)
                (h.payload.memory_id :: seen) [] rest).snd) := by
          simp only [fuseLoop, if_neg hs, hfd]
          rw [fuseLoop_acc rest (touch st h.payload.memory_id)
            (h.payload.memory_id :: seen) ([] ++ [node])]
          simp
        rw [hfe] at hn' ⊢
        simp only at hn' ⊢
        have hN1 : ((touch st h.payload.memory_id).memory_nodes.map
            MemoryNode.id).Nodup := by
          have : (touch st h.payload.memory_id).memory_nodes.map
              MemoryNode.id = st.memory_nodes.map MemoryNode.id :=
            updateFirst_map_id st.now h.payload.memory_id st.memory_nodes
          rw [this]; exact hN
        have hmidrec : h.payload.memory_id ∉
            (fuseLoop (touch st h.payload.memory_id)
              (h.payload.memory_id :: seen) [] rest).fst.map MemoryNode.id := by
          intro hc
          exact fuseLoop_fst_ids_not_seen rest _ _ _ hc
            (List.mem_cons_self _ _)
        have hnodeid : node.id = h.payload.memory_id := (find_node_eq_id hfd).1
        have hn1 := touch_getElem st h.payload.memory_id hN i
        rw [hn] at hn1
        by_cases hcase : n.id = h.payload.memory_id
        · have hn1' : (touch st h.payload.memory_id).memory_nodes[i]? =
              some { n with last_used_at := st.now } := by
            rw [hn1]; simp [hcase]
          have hIH := ih (touch st h.payload.memory_id)
            (h.payload.memory_id :: seen) hN1 i
            { n with last_used_at := st.now } n' hn1' hn'
          have hunch : n' = { n with last_used_at := st.now } := by
            apply hIH.2
            simpa [hcase] using hmidrec
          constructor
          · intro _
            rw [hunch]
            exact ⟨le_refl _, rfl⟩
          · intro hnot
            exfalso
            apply hnot
            rw [List.map_cons, hnodeid, hcase]
            exact List.mem_cons_self _ _
        · have hn1' : (touch st h.payload.memory_id).memory_nodes[i]? =
              some n := by
            rw [hn1]; simp [hcase]
          have hIH := ih (touch st h.payload.memory_id)
            (h.payload.memory_id :: seen) hN1 i n n' hn1' hn'
          constructor
          · intro hmem
            rw [List.map_cons, hnodeid] at hmem
            rcases List.mem_cons.mp hmem with he | hmem'
            · exact absurd he hcase
            · obtain ⟨h1, h2⟩ := hIH.1 hmem'
              refine ⟨le_trans ?_ h1, h2⟩
              exact le_trans (Nat.le_succ _) (le_refl _)
          · intro hnot
            apply hIH.2
            intro hc
            apply hnot
            rw [List.map_cons, hnodeid]
            exact List.mem_cons_of_mem _ hc

/-- C8: as a side effect of `retrieve_context`, every returned node's
stored copy has its `last_used_at` strictly advanced (to the retrieval
timestamp) with all other fields unchanged, while nodes that are not
returned, all messages, and all index points are left untouched. The state
is assumed duplicate-free in ids and clock-consistent. -/
theorem retrieve_context_frame (embed : String → List ℚ)
    (sim : List ℚ → List ℚ → ℚ) (user_id session_id query : String)
    (st : MemState)
    (hN : (st.memory_nodes.map MemoryNode.id).Nodup)
    (hclock : ∀ n ∈ st.memory_nodes, n.last_used_at < st.now) :
    (retrieve_context embed sim user_id session_id query st).snd.messages =
      st.messages ∧
    (retrieve_context embed sim user_id session_id query st).snd.points =
      st.points ∧
    (retrieve_context embed sim user_id session_id
        query st).snd.memory_nodes.length = st.memory_nodes.length ∧
    ∀ (i : Nat) (n n' : MemoryNode),
      st.memory_nodes[i]? = some n →
      (retrieve_context embed sim user_id session_id
          query st).snd.memory_nodes[i]? = some n' →
      (n.id ∈ (retrieve_context embed sim user_id session_id
          query st).fst.map MemoryNode.id →
        n.last_used_at < n'.last_used_at ∧
        n' = { n with last_used_at := n'.last_used_at }) ∧
      (n.id ∉ (retrieve_context embed sim user_id session_id
          query st).fst.map MemoryNode.id → n' = n) := by
  obtain ⟨hm, hp, _, _, hids⟩ :=
    fuseLoop_snd_frame
      (session_hits embed sim user_id session_id query st ++
        global_hits embed sim user_id session_id query st) st [] []
  refine ⟨hm, hp, ?_, ?_⟩
  · have := congrArg List.length hids
    simpa using this
  · intro i n n' hn hn'
    have hpw :=
      fuseLoop_nodes_pointwise
        (session_hits embed sim user_id session_id query st ++
          global_hits embed sim user_id session_id query st)
        st [] hN i n n' hn hn'
    refine ⟨?_, hpw.2⟩
    intro hmem
    obtain ⟨h1, h2⟩ := hpw.1 hmem
    have hnmem : n ∈ st.memory_nodes := by
      obtain ⟨hlt, rfl⟩ := List.getElem?_eq_some.mp hn
      exact List.getElem_mem hlt
    exact ⟨lt_of_lt_of_le (hclock n hnmem) h1, h2⟩

/-- C8 witness: the frame theorem at the two-point one-node state. -/
theorem retrieve_context_frame_witness :
    ((stBoth.memory_nodes.map MemoryNode.id).Nodup ∧
      ∀ n ∈ stBoth.memory_nodes, n.last_used_at < stBoth.now) ∧
    ((retrieve_context embed0 sim0 "u1" "s1" "q" stBoth).snd.messages =
        stBoth.messages ∧
      (retrieve_context embed0 sim0 "u1" "s1" "q" stBoth).snd.points =
        stBoth.points ∧
      (retrieve_context embed0 sim0 "u1" "s1"
          "q" stBoth).snd.memory_nodes.length =
        stBoth.memory_nodes.length ∧
      ∀ (i : Nat) (n n' : MemoryNode),
        stBoth.memory_nodes[i]? = some n →
        (retrieve_context embed0 sim0 "u1" "s1"
            "q" stBoth).snd.memory_nodes[i]? = some n' →
        (n.id ∈ (retrieve_context embed0 sim0 "u1" "s1"
            "q" stBoth).fst.map MemoryNode.id →
          n.last_used_at < n'.last_used_at ∧
          n' = { n with last_used_at := n'.last_used_at }) ∧
        (n.id ∉ (retrieve_context embed0 sim0 "u1" "s1"
            "q" stBoth).fst.map MemoryNode.id → n' = n)) :=
  ⟨⟨by decide, by decide⟩,
    retrieve_context_frame embed0 sim0 "u1" "s1" "q" stBoth
      (by decide) (by decide)⟩

/-- `find?` skips a prefix on which the predicate never holds. -/
lemma find?_append_right {α : Type} (p : α → Bool) (l₁ : List α)
    (l₂ : List α) (h : ∀ x ∈ l₁, ¬ p x = true) :
    (l₁ ++ l₂).find? p = l₂.find? p := by
  induction l₁ with
  | nil => rfl
  | cons x xs ih =>
    rw [List.cons_append,
      List.find?_cons_of_neg _ (h x (List.mem_cons_self _ _))]
    exact ih (fun y hy => h y (List.mem_cons_of_mem _ hy))

/-- C3: a memory promoted in session A with importance above the
promotion threshold, into a state with an empty semantic index, is
returned by a retrieval from a different session B exactly when its
importance reaches the cross-session recall threshold 0.7 — even though
session B has no session-local hits. -/
theorem cross_session_recall (embed : String → List ℚ)
    (sim : List ℚ → List ℚ → ℚ)
    (user_id sessionA sessionB summary query ty : String)
    (raw_refs : List Nat) (importance : ℚ) (st : MemState)
    (hAB : sessionA ≠ sessionB)
    (hpts : st.points = [])
    (hfresh : ∀ n ∈ st.memory_nodes, n.id ≠ st.nextId)
    (himp : PROMOTION_THRESHOLD < importance) :
    (promotedNode user_id sessionA summary importance ty raw_refs st ∈
      (retrieve_context embed sim user_id sessionB query
        (promote_memory embed user_id sessionA summary importance ty
          raw_refs st)).fst) ↔
    GLOBAL_RECALL_THRESHOLD ≤ importance := by
  set st' := promote_memory embed user_id sessionA summary importance ty
    raw_refs st with hst'
  set node := promotedNode user_id sessionA summary importance ty raw_refs st
    with hnode
  set entry := promotedEntry embed user_id sessionA summary importance ty st
    with hentry
  have hpoints' : st'.points = [entry] := by
    rw [hst', hentry]
    simp [promote_memory, fresh, utcnow, upsertPoint, himp, hpts,
      promotedEntry]
  have hnodes' : st'.memory_nodes = st.memory_nodes ++ [node] := by
    rw [hst', hnode]
    simp [promote_memory, fresh, utcnow, himp, promotedNode]
  have hfind : find_node st' st.nextId = some node := by
    unfold find_node
    rw [hnodes', find?_append_right _ _ _
      (fun x hx => by simpa using hfresh x hx)]
    simp [hnode, promotedNode]
  have hS : session_hits embed sim user_id sessionB query st' = [] := by
    unfold session_hits queryPoints
    rw [hpoints']
    have : sessionFilter user_id sessionB entry = false := by
      simp [sessionFilter, hentry, promotedEntry, hAB]
    simp [this, sortDescBy]
  by_cases hge : GLOBAL_RECALL_THRESHOLD ≤ importance
  · have hG : global_hits embed sim user_id sessionB query st' = [entry] := by
      unfold global_hits queryPoints
      rw [hpoints']
      have : globalFilter user_id sessionB entry = true := by
        simp [globalFilter, hentry, promotedEntry, hge,
          (by exact fun e => hAB e : ¬ sessionA = sessionB)]
      simp [this, sortDescBy, insertDescBy]
    have hres : (retrieve_context embed sim user_id sessionB query
        st').fst = [node] := by
      have h0 : (retrieve_context embed sim user_id sessionB query
          st').fst =
        (dedupSeen []
          ((session_hits embed sim user_id sessionB query st' ++
            global_hits embed sim user_id sessionB query st').map
            (fun h => h.payload.memory_id))).filterMap (find_node st') :=
        fuseLoop_fst_eq _ st' []
      rw [hS, hG] at h0
      rw [h0]
      simp only [List.nil_append, List.map_cons, List.map_nil]
      have : entry.payload.memory_id = st.nextId := by
        simp [hentry, promotedEntry]
      rw [this]
      simp [dedupSeen, List.filterMap_cons, hfind]
    rw [hres]
    simp [hge]
  · have hG : global_hits embed sim user_id sessionB query st' = [] := by
      unfold global_hits queryPoints
      rw [hpoints']
      have : globalFilter user_id sessionB entry = false := by
        simp [globalFilter, hentry, promotedEntry, hge]
      simp [this, sortDescBy]
    have hres : (retrieve_context embed sim user_id sessionB query
        st').fst = [] := by
      have h0 : (retrieve_context embed sim user_id sessionB query
          st').fst =
        (dedupSeen []
          ((session_hits embed sim user_id sessionB query st' ++
            global_hits embed sim user_id sessionB query st').map
            (fun h => h.payload.memory_id))).filterMap (find_node st') :=
        fuseLoop_fst_eq _ st' []
      rw [hS, hG] at h0
      rw [h0]
      simp [dedupSeen]
    rw [hres]
    simp [hge]

/-- C3 witness: importance 0.9 promoted in session sA, retrieved from
session sB. -/
theorem cross_session_recall_witness :
    ("sA" ≠ "sB" ∧ st0.points = [] ∧
      (∀ n ∈ st0.memory_nodes, n.id ≠ st0.nextId) ∧
      PROMOTION_THRESHOLD < mkRat 9 10) ∧
    ((promotedNode "u1" "sA" "m1" (mkRat 9 10) "preference" [] st0 ∈
      (retrieve_context embed0 sim0 "u1" "sB" "q"
        (promote_memory embed0 "u1" "sA" "m1" (mkRat 9 10) "preference" []
          st0)).fst) ↔
      GLOBAL_RECALL_THRESHOLD ≤ mkRat 9 10) :=
  ⟨⟨by decide, rfl, by decide, by decide⟩,
    cross_session_recall embed0 sim0 "u1" "sA" "sB" "m1" "q" "preference"
      [] (mkRat 9 10) st0 (by decide) rfl (by decide) (by decide)⟩

/-- C5 witness: two messages in the session, one outside, limit 1. -/
theorem get_recent_messages_spec_witness :
    (get_recent_messages "s1" 1
        { st0 with messages :=
            [{ id := 0, session_id := "s1", user_id := "u1", role := "user",
               content := "a", created_at := 0 },
             { id := 1, session_id := "s2", user_id := "u1", role := "user",
               content := "b", created_at := 1 },
             { id := 2, session_id := "s1", user_id := "u1", role := "user",
               content := "c", created_at := 2 }] }).length =
      min 1
        ((({ st0 with messages :=
            [{ id := 0, session_id := "s1", user_id := "u1", role := "user",
               content := "a", created_at := 0 },
             { id := 1, session_id := "s2", user_id := "u1", role := "user",
               content := "b", created_at := 1 },
             { id := 2, session_id := "s1", user_id := "u1", role := "user",
               content := "c", created_at := 2 }] } : MemState)).messages.filter
          (fun m => m.session_id == "s1")).length :=
  (get_recent_messages_spec "s1" 1
    { st0 with messages :=
        [{ id := 0, session_id := "s1", user_id := "u1", role := "user",
           content := "a", created_at := 0 },
         { id := 1, session_id := "s2", user_id := "u1", role := "user",
           content := "b", created_at := 1 },
         { id := 2, session_id := "s1", user_id := "u1", role := "user",
           content := "c", created_at := 2 }] }).1

end AgenticMemory
